import Mathlib

/-!
Verification of the FramerDotGrid component (`FRAMER_COMPONENT_dotGrid.tsx`,
the trailing variant, and its non-trailing variant).

The JavaScript number arithmetic of the component (addition, subtraction,
multiplication, division, `Math.floor`, `Math.max`, `Math.min`, `Math.round`)
is embedded over the rationals `ℚ`, with `Math.floor` as `Int.floor` and
`Math.round x` as `⌊x + 1/2⌋` (JS rounds halves toward +∞).  The nearest-dot
scan compares `Math.hypot` values with strict `<`; since `Real.sqrt` is
strictly monotone on nonnegative reals, the scan is embedded by comparing
squared distances, which is exact over `ℚ`.
-/

namespace DotGrid

/-- The props record of `DotGridHeroProps`, with the defaults of the
destructuring in `DotGridHero` applied to the non-optional fields.
Optional props (`circleRadius`, `hoverSquareRadius`, `hoverDotCount`,
`smoothIntensity`) keep their `undefined` case as `Option`. -/
structure Props where
  dotSize : ℚ := 16
  gap : ℚ := 32
  baseColor : String := "#5227FF"
  activeColor : String := "#FFFFFF"
  circleRadius : Option ℚ := none
  hoverSquareRadius : Option ℚ := none
  hoverDotCount : Option ℚ := none
  smoothIntensity : Option ℚ := none
  trailEnabled : Bool := false
  trailHoldMs : ℚ := 180
  trailFadeMs : ℚ := 520
deriving Repr, DecidableEq

/-- A dot of the grid: `{ x, y, col, row }` as pushed by the grid `useMemo`. -/
structure Dot where
  x : ℚ
  y : ℚ
  col : ℕ
  row : ℕ
deriving Repr, DecidableEq

/-- `cell = dotSize + gap`. -/
def cellOf (dotSize gap : ℚ) : ℚ := dotSize + gap

/-- `cols = Math.max(1, Math.floor((dimensions.width + gap) / cell))`.
The result is at least 1, so it is returned as a natural number. -/
def colsOf (width dotSize gap : ℚ) : ℕ :=
  (max 1 ⌊(width + gap) / cellOf dotSize gap⌋).toNat

/-- `rows = Math.max(1, Math.floor((dimensions.height + gap) / cell))`. -/
def rowsOf (height dotSize gap : ℚ) : ℕ :=
  (max 1 ⌊(height + gap) / cellOf dotSize gap⌋).toNat

/-- `startX = extraX / 2 + dotSize / 2` where `extraX = width - (cell*cols - gap)`. -/
def startXOf (width dotSize gap : ℚ) : ℚ :=
  (width - (cellOf dotSize gap * colsOf width dotSize gap - gap)) / 2 + dotSize / 2

/-- `startY = extraY / 2 + dotSize / 2` where `extraY = height - (cell*rows - gap)`. -/
def startYOf (height dotSize gap : ℚ) : ℚ :=
  (height - (cellOf dotSize gap * rowsOf height dotSize gap - gap)) / 2 + dotSize / 2

/-- The grid list built by the nested `for (row …) for (col …) grid.push(…)`
loops, in the same row-major push order. -/
def gridDots (width height dotSize gap : ℚ) : List Dot :=
  (List.range (rowsOf height dotSize gap)).flatMap fun (row : ℕ) =>
    (List.range (colsOf width dotSize gap)).map fun (col : ℕ) =>
      { x := startXOf width dotSize gap + (col : ℚ) * cellOf dotSize gap
        y := startYOf height dotSize gap + (row : ℚ) * cellOf dotSize gap
        col := col
        row := row }

/-- Squared Euclidean distance from a dot's center to the pointer; the scan
compares `Math.hypot(grid[i].x - hover.x, grid[i].y - hover.y)` values with
strict `<`, which orders exactly as the squared distances. -/
def distSq (d : Dot) (hx hy : ℚ) : ℚ :=
  (d.x - hx) * (d.x - hx) + (d.y - hy) * (d.y - hy)

/-- One step of the `hoveredDot` scan: a dot with distance strictly below the
running minimum (`none` standing for the initial `Infinity`) replaces it. -/
def scanStep (hx hy : ℚ) (acc : Option (ℚ × Dot)) (d : Dot) : Option (ℚ × Dot) :=
  match acc with
  | none => some (distSq d hx hy, d)
  | some (m, b) => if distSq d hx hy < m then some (distSq d hx hy, d) else some (m, b)

/-- The `hoveredDot` scan: `minDist` starts at `Infinity`, each dot strictly
closer than the running minimum replaces it, and the final best dot is
returned (`none` for an empty grid, as `idx === -1`). -/
def hoveredDot (grid : List Dot) (hx hy : ℚ) : Option Dot :=
  (grid.foldl (scanStep hx hy) none).map Prod.snd

/-- `hoverRadius = Math.floor(count / 2)` where
`count = typeof props.hoverDotCount === "number" ? props.hoverDotCount : 5`. -/
def hoverRadiusOf (count : ℚ) : ℤ := ⌊count / 2⌋

/-- The `activeSet` cluster: for `dr, dc ∈ [-hoverRadius, hoverRadius]`, the
index `r * cols + c` of `(r, c) = (hoveredRow + dr, hoveredCol + dc)` is added
unless the bounds check `r < 0 || r >= rows || c < 0 || c >= cols` skips it. -/
def activeSet (rows cols : ℕ) (hr hc : ℕ) (count : ℚ) : Finset ℕ :=
  (((Finset.Icc (-(hoverRadiusOf count)) (hoverRadiusOf count)) ×ˢ
      (Finset.Icc (-(hoverRadiusOf count)) (hoverRadiusOf count))).filter
    fun p =>
      ¬((hr : ℤ) + p.1 < 0 ∨ (hr : ℤ) + p.1 ≥ (rows : ℤ) ∨
        (hc : ℤ) + p.2 < 0 ∨ (hc : ℤ) + p.2 ≥ (cols : ℤ))).image
    fun p => (((hr : ℤ) + p.1) * (cols : ℤ) + ((hc : ℤ) + p.2)).toNat

/-- `maxDist = Math.floor(count / 2)` and the guard `maxDist === 0 ? 1 : maxDist`. -/
def effMaxDist (count : ℚ) : ℤ :=
  if hoverRadiusOf count = 0 then 1 else hoverRadiusOf count

/-- The hover-branch scale:
`scaleTarget = 1 + intensity * Math.max(0, 1 - dist / (maxDist === 0 ? 1 : maxDist))`. -/
def scaleTarget (count intensity : ℚ) (dist : ℕ) : ℚ :=
  1 + intensity * max 0 (1 - (dist : ℚ) / (effMaxDist count : ℚ))

/-- `getTrailLevel`: 0 when trailing is off or the dot has no entry; 1 during
the hold window; a `[0,1]`-clamped linear fade afterwards. -/
def getTrailLevel (trailEnabled : Bool) (hit : Option ℚ)
    (trailHoldMs trailFadeMs now : ℚ) : ℚ :=
  if !trailEnabled then 0
  else
    match hit with
    | none => 0
    | some h =>
      let hold := max 0 trailHoldMs
      let fade := max 0 trailFadeMs
      let elapsed := now - h
      if elapsed ≤ hold then 1
      else if fade ≤ 0 then 0
      else max 0 (min 1 (1 - (elapsed - hold) / fade))

/-- One tick of the RAF clock: the eviction pass over `lastHitRef` (clear all
when `expire ≤ 0`, else delete entries with `t - hit > expire`), paired with
the `stillNeeded` re-scheduling decision. The entry map is modelled as an
association list keyed by dot index. -/
def tick (trailEnabled : Bool) (hoverPresent : Bool)
    (trailHoldMs trailFadeMs t : ℚ) (m : List (ℕ × ℚ)) :
    List (ℕ × ℚ) × Bool :=
  let hold := max 0 trailHoldMs
  let fade := max 0 trailFadeMs
  let expire := hold + fade
  let m2 := if expire ≤ 0 then [] else m.filter fun e => !(t - e.2 > expire)
  (m2, trailEnabled && (hoverPresent || m2.length > 0))

/-- Value of a hexadecimal digit, as matched by the case-insensitive
character class `[a-f\d]` of the `hexToRgb` regex (code points 48–57 are
`0`–`9`, 97–102 are `a`–`f`, 65–70 are `A`–`F`). -/
def hexVal (c : Char) : Option ℕ :=
  if 48 ≤ c.toNat ∧ c.toNat ≤ 57 then some (c.toNat - 48)
  else if 97 ≤ c.toNat ∧ c.toNat ≤ 102 then some (c.toNat - 97 + 10)
  else if 65 ≤ c.toNat ∧ c.toNat ≤ 70 then some (c.toNat - 65 + 10)
  else none

/-- The optional leading `#` of the `hexToRgb` regex. -/
def stripHash (cs : List Char) : List Char :=
  match cs with
  | '#' :: rest => rest
  | cs => cs

/-- The anchored match `/^#?([a-f\d]{2})([a-f\d]{2})([a-f\d]{2})$/i` on the
character list: an optional leading `#` followed by exactly six hex digits,
grouped in pairs parsed with `parseInt(_, 16)`. `none` when the regex does
not match. -/
def parseHexChars (cs0 : List Char) : Option (ℕ × ℕ × ℕ) :=
  match stripHash cs0 with
  | [c1, c2, c3, c4, c5, c6] =>
    match hexVal c1, hexVal c2, hexVal c3, hexVal c4, hexVal c5, hexVal c6 with
    | some v1, some v2, some v3, some v4, some v5, some v6 =>
      some (16 * v1 + v2, 16 * v3 + v4, 16 * v5 + v6)
    | _, _, _, _, _, _ => none
  | _ => none

/-- The regex match of `hexToRgb` on a string. -/
def parseHex (hex : String) : Option (ℕ × ℕ × ℕ) :=
  parseHexChars hex.data

/-- `hexToRgb`: the regex match, with the non-matching case returning
black `{ r: 0, g: 0, b: 0 }`. -/
def hexToRgb (hex : String) : ℕ × ℕ × ℕ :=
  (parseHex hex).getD (0, 0, 0)

/-- `Math.round` of JavaScript: halves round toward positive infinity. -/
def jsRound (x : ℚ) : ℤ := ⌊x + 1 / 2⌋

/-- The per-channel clamp `Math.max(0, Math.min(255, Math.round(x)))`. -/
def clampChannel (x : ℚ) : ℕ := (max 0 (min 255 (jsRound x))).toNat

/-- Two-digit lowercase hex of a channel value,
`v.toString(16).padStart(2, "0")` for `v ≤ 255`. -/
def hex2 (n : ℕ) : List Char := [Nat.digitChar (n / 16), Nat.digitChar (n % 16)]

/-- `rgbToHex`: `"#"` followed by the three clamped, rounded channels in
two-digit hex. -/
def rgbToHex (r g b : ℚ) : String :=
  ⟨'#' :: (hex2 (clampChannel r) ++ hex2 (clampChannel g) ++ hex2 (clampChannel b))⟩

/-- `blend(a, b, t)`: per-channel linear interpolation `ca + (cb - ca) * t`
re-serialized through `rgbToHex`. -/
def blend (a b : String) (t : ℚ) : String :=
  let ca := hexToRgb a
  let cb := hexToRgb b
  rgbToHex ((ca.1 : ℚ) + ((cb.1 : ℚ) - (ca.1 : ℚ)) * t)
    ((ca.2.1 : ℚ) + ((cb.2.1 : ℚ) - (ca.2.1 : ℚ)) * t)
    ((ca.2.2 : ℚ) + ((cb.2.2 : ℚ) - (ca.2.2 : ℚ)) * t)

/-- The visual attributes computed for one dot inside the `grid.map` render
callback: the `level` and `scaleTarget` locals and the emitted circle
attributes `cx`, `cy`, `r`, `fill`. -/
structure DotVisual where
  level : ℚ
  scaleTarget : ℚ
  x : ℚ
  y : ℚ
  r : ℚ
  color : String
deriving Repr, DecidableEq

/-- `count` at its use sites: `typeof props.hoverDotCount === "number"
? props.hoverDotCount : 5`. -/
def countOf (p : Props) : ℚ := p.hoverDotCount.getD 5

/-- `intensity` at its use sites: `typeof props.smoothIntensity === "number"
? props.smoothIntensity : 0.95`. -/
def intensityOf (p : Props) : ℚ := p.smoothIntensity.getD (95 / 100)

/-- `baseRadius`: `typeof props.circleRadius === "number" ? props.circleRadius
: dotSize / 2`. -/
def baseRadiusOf (p : Props) : ℚ := p.circleRadius.getD (p.dotSize / 2)

/-- Chebyshev grid distance
`Math.max(Math.abs(dot.row - hovered.row), Math.abs(dot.col - hovered.col))`. -/
def gridDist (d hd : Dot) : ℕ :=
  max ((d.row : ℤ) - (hd.row : ℤ)).natAbs ((d.col : ℤ) - (hd.col : ℤ)).natAbs

/-- The body of the trailing variant's `grid.map` callback for dot `i`:
hover branch (`level = 1`, distance-based `scaleTarget`), else trail branch
(`level = getTrailLevel(i)`, peak `scaleTarget` when `level > 0`), then
`color = level > 0 ? blend(baseColor, activeColor, level) : baseColor`,
`scale = 1 + (scaleTarget - 1) * level` and `r = baseRadius * scale`. -/
def renderDotTrail (p : Props) (hoverPresent : Bool) (hovered : Option Dot)
    (aset : Finset ℕ) (lastHit : List (ℕ × ℚ)) (now : ℚ) (i : ℕ) (dot : Dot) :
    DotVisual :=
  let isHoverActive := hoverPresent && decide (i ∈ aset) && hovered.isSome
  match hovered, isHoverActive with
  | some hd, true =>
    let level : ℚ := 1
    let st := scaleTarget (countOf p) (intensityOf p) (gridDist dot hd)
    { level := level
      scaleTarget := st
      x := dot.x
      y := dot.y
      r := baseRadiusOf p * (1 + (st - 1) * level)
      color := if level > 0 then blend p.baseColor p.activeColor level else p.baseColor }
  | _, _ =>
    let level := getTrailLevel p.trailEnabled (lastHit.lookup i) p.trailHoldMs p.trailFadeMs now
    let st : ℚ := if level > 0 then 1 + intensityOf p else 1
    { level := level
      scaleTarget := st
      x := dot.x
      y := dot.y
      r := baseRadiusOf p * (1 + (st - 1) * level)
      color := if level > 0 then blend p.baseColor p.activeColor level else p.baseColor }

/-- The body of the non-trailing variant's `grid.map` callback for dot `i`:
`scale = 1`, `color = baseColor` unless `hover && activeSet.has(i) &&
hoveredDot`, in which case `color = activeColor` and the distance-based
scale falloff applies. `level` records `isActive` for comparison purposes. -/
def renderDotPlain (p : Props) (hoverPresent : Bool) (hovered : Option Dot)
    (aset : Finset ℕ) (i : ℕ) (dot : Dot) : DotVisual :=
  let isActive := hoverPresent && decide (i ∈ aset) && hovered.isSome
  match hovered, isActive with
  | some hd, true =>
    let st := scaleTarget (countOf p) (intensityOf p) (gridDist dot hd)
    { level := 1
      scaleTarget := st
      x := dot.x
      y := dot.y
      r := baseRadiusOf p * st
      color := p.activeColor }
  | _, _ =>
    { level := 0
      scaleTarget := 1
      x := dot.x
      y := dot.y
      r := baseRadiusOf p * 1
      color := p.baseColor }

/-- The `hoveredDot` memo including its `if (!hover) return null` guard. -/
def hoveredOf (grid : List Dot) (hover : Option (ℚ × ℚ)) : Option Dot :=
  match hover with
  | none => none
  | some (hx, hy) => hoveredDot grid hx hy

/-- The `activeSet` memo including its `if (!hoveredDot) return new Set()`
guard. -/
def activeSetOf (rows cols : ℕ) (hovered : Option Dot) (count : ℚ) : Finset ℕ :=
  match hovered with
  | none => ∅
  | some hd => activeSet rows cols hd.row hd.col count

/-- The `activeSet` memo input of the render pipelines: the cluster around
the hovered dot of the computed grid. -/
def asetOf (p : Props) (width height : ℚ) (hover : Option (ℚ × ℚ)) : Finset ℕ :=
  activeSetOf (rowsOf height p.dotSize p.gap) (colsOf width p.dotSize p.gap)
    (hoveredOf (gridDots width height p.dotSize p.gap) hover) (countOf p)

/-- Full render pipeline of the trailing variant: grid, hovered dot, cluster,
then the per-dot visuals in the grid's row-major order. -/
def renderTrail (p : Props) (width height : ℚ) (hover : Option (ℚ × ℚ))
    (lastHit : List (ℕ × ℚ)) (now : ℚ) : List DotVisual :=
  (gridDots width height p.dotSize p.gap).enum.map fun di =>
    renderDotTrail p hover.isSome
      (hoveredOf (gridDots width height p.dotSize p.gap) hover)
      (asetOf p width height hover) lastHit now di.1 di.2

/-- Full render pipeline of the non-trailing variant. -/
def renderPlain (p : Props) (width height : ℚ) (hover : Option (ℚ × ℚ)) :
    List DotVisual :=
  (gridDots width height p.dotSize p.gap).enum.map fun di =>
    renderDotPlain p hover.isSome
      (hoveredOf (gridDots width height p.dotSize p.gap) hover)
      (asetOf p width height hover) di.1 di.2

/-- The `(cx, cy, r, fill)` attributes actually emitted for a circle. -/
def outputTuple (v : DotVisual) : ℚ × ℚ × ℚ × String := (v.x, v.y, v.r, v.color)

lemma effMaxDist_pos (count : ℚ) (hcount : 0 ≤ count) : 0 < effMaxDist count := by
  unfold effMaxDist
  split
  · exact one_pos
  · rename_i hne
    rcases lt_or_eq_of_le (Int.floor_nonneg.mpr (by positivity) :
      0 ≤ hoverRadiusOf count) with h | h
    · exact h
    · exact absurd h.symm hne

/-- C3: for every dot in the cluster at Chebyshev grid distance `dist` from
the hovered dot, the radius scale is `1 + intensity * max(0, 1 - dist/maxDist)`
with `maxDist = floor(count/2)` treated as 1 when it is 0; the scale is
`1 + intensity` at distance 0, exactly 1 at the effective maximal distance,
and is monotonically non-increasing in the distance when `intensity ≥ 0`. -/
theorem activation_falloff (count intensity : ℚ)
    (hcount : 0 ≤ count) (hint : 0 ≤ intensity) :
    (∀ dist : ℕ, scaleTarget count intensity dist =
      1 + intensity * max 0 (1 - (dist : ℚ) / ((effMaxDist count : ℤ) : ℚ))) ∧
    scaleTarget count intensity 0 = 1 + intensity ∧
    scaleTarget count intensity (effMaxDist count).toNat = 1 ∧
    ∀ d1 d2 : ℕ, d1 ≤ d2 →
      scaleTarget count intensity d2 ≤ scaleTarget count intensity d1 := by
  have hpos : 0 < effMaxDist count := effMaxDist_pos count hcount
  have hposq : (0 : ℚ) < ((effMaxDist count : ℤ) : ℚ) := by exact_mod_cast hpos
  refine ⟨fun dist => rfl, ?_, ?_, ?_⟩
  · unfold scaleTarget
    norm_num
  · unfold scaleTarget
    have hcast : (((effMaxDist count).toNat : ℕ) : ℚ) = ((effMaxDist count : ℤ) : ℚ) := by
      exact_mod_cast congrArg (fun z : ℤ => (z : ℚ)) (Int.toNat_of_nonneg hpos.le)
    rw [hcast, div_self hposq.ne']
    norm_num
  · intro d1 d2 hle
    unfold scaleTarget
    have h1 : (1 : ℚ) - (d2 : ℚ) / ((effMaxDist count : ℤ) : ℚ) ≤
        1 - (d1 : ℚ) / ((effMaxDist count : ℤ) : ℚ) := by
      have : (d1 : ℚ) / ((effMaxDist count : ℤ) : ℚ) ≤
          (d2 : ℚ) / ((effMaxDist count : ℤ) : ℚ) :=
        (div_le_div_iff_of_pos_right hposq).mpr (by exact_mod_cast hle)
      linarith
    have h2 : max 0 (1 - (d2 : ℚ) / ((effMaxDist count : ℤ) : ℚ)) ≤
        max 0 (1 - (d1 : ℚ) / ((effMaxDist count : ℤ) : ℚ)) :=
      max_le_max le_rfl h1
    nlinarith [mul_le_mul_of_nonneg_left h2 hint]

/-- Witness for `activation_falloff` at the defaults `count = 5`,
`intensity = 0.95`. -/
theorem activation_falloff_witness :
    (0 : ℚ) ≤ 5 ∧ (0 : ℚ) ≤ 95 / 100 ∧
    ((∀ dist : ℕ, scaleTarget 5 (95 / 100) dist =
        1 + (95 / 100) * max 0 (1 - (dist : ℚ) / ((effMaxDist 5 : ℤ) : ℚ))) ∧
      scaleTarget 5 (95 / 100) 0 = 1 + 95 / 100 ∧
      scaleTarget 5 (95 / 100) (effMaxDist 5).toNat = 1 ∧
      ∀ d1 d2 : ℕ, d1 ≤ d2 →
        scaleTarget 5 (95 / 100) d2 ≤ scaleTarget 5 (95 / 100) d1) :=
  ⟨by norm_num, by norm_num,
    activation_falloff 5 (95 / 100) (by norm_num) (by norm_num)⟩

/-- C4: with trailing enabled, an entry with timestamp `t0` has intensity 1
while `t - t0 ≤ trailHoldMs`, intensity `1 - (t - t0 - hold)/fade` during the
fade window, and a tick at a time `t` with `t - t0 > hold + fade` removes the
entry, after which the intensity is 0; the defaults `hold = 180`,
`fade = 520` give intensity 1 at `t0 + 100`, `1/2` at `t0 + 440`, and an
absent entry after a tick at `t0 + 701`. -/
theorem trail_level_spec (hold fade t0 t : ℚ) (i : ℕ)
    (hhold : 0 ≤ hold) (hfade : 0 ≤ fade) :
    (t - t0 ≤ hold → getTrailLevel true (some t0) hold fade t = 1) ∧
    (hold < t - t0 → t - t0 ≤ hold + fade →
      getTrailLevel true (some t0) hold fade t = 1 - (t - t0 - hold) / fade) ∧
    (hold + fade < t - t0 → ∀ m : List (ℕ × ℚ), (i, t0) ∈ m →
      (i, t0) ∉ (tick true false hold fade t m).1) ∧
    getTrailLevel true none hold fade t = 0 ∧
    getTrailLevel true (some t0) 180 520 (t0 + 100) = 1 ∧
    getTrailLevel true (some t0) 180 520 (t0 + 440) = 1 / 2 ∧
    (tick true false 180 520 (t0 + 701) [(i, t0)]).1 = [] := by
  have hmaxh : max 0 hold = hold := max_eq_right hhold
  have hmaxf : max 0 fade = fade := max_eq_right hfade
  refine ⟨?_, ?_, ?_, rfl, ?_, ?_, ?_⟩
  · intro hwin
    simp [getTrailLevel, hmaxh, hmaxf, hwin]
  · intro hlo hhi
    have hfpos : 0 < fade := by
      rcases lt_or_eq_of_le hfade with h | h
      · exact h
      · exfalso; rw [← h] at hhi; linarith
    have hv0 : 0 ≤ 1 - (t - t0 - hold) / fade := by
      rw [sub_nonneg, div_le_one hfpos]
      linarith
    have hv1 : 1 - (t - t0 - hold) / fade ≤ 1 := by
      have : 0 ≤ (t - t0 - hold) / fade := by
        apply div_nonneg _ hfpos.le
        linarith
      linarith
    simp only [getTrailLevel, Bool.not_true, hmaxh, hmaxf]
    rw [if_neg (by simp), if_neg (by linarith), if_neg (by linarith),
      min_eq_right hv1, max_eq_right hv0]
  · intro hexp m hm
    unfold tick
    simp only [hmaxh, hmaxf]
    split
    · simp
    · intro hmem
      have h2 := (List.mem_filter.mp hmem).2
      simp only [gt_iff_lt, Bool.not_eq_true', decide_eq_false_iff_not, not_lt] at h2
      linarith
  · simp [getTrailLevel]
    norm_num
  · simp [getTrailLevel]
    norm_num
  · simp only [tick]
    rw [if_neg (by norm_num)]
    rw [List.filter_eq_nil_iff.mpr ?_]
    intro e he
    simp only [List.mem_singleton] at he
    subst he
    simp only [gt_iff_lt, Bool.not_eq_false', decide_eq_true_eq]
    norm_num

/-- Witness for `trail_level_spec` at the defaults and a concrete timestamp. -/
theorem trail_level_spec_witness :
    (0 : ℚ) ≤ 180 ∧ (0 : ℚ) ≤ 520 ∧
    (((1000 : ℚ) + 100) - 1000 ≤ 180 →
        getTrailLevel true (some 1000) 180 520 (1000 + 100) = 1) ∧
    getTrailLevel true (some 1000) 180 520 (1000 + 440) = 1 / 2 ∧
    (tick true false 180 520 ((1000 : ℚ) + 701) [(0, 1000)]).1 = [] := by
  have h := trail_level_spec 180 520 1000 (1000 + 100) 0 (by norm_num) (by norm_num)
  exact ⟨by norm_num, by norm_num, h.1, h.2.2.2.2.2.1, h.2.2.2.2.2.2⟩

/-- C7: a tick of the trail clock re-schedules itself exactly when
`trailEnabled` holds and either the pointer is present or an unexpired entry
survives the tick's eviction pass; entries that survive are unexpired entries
of the previous map, and with no pointer and an empty map the loop stops. -/
theorem tick_self_terminating (trailEnabled hoverPresent : Bool)
    (hold fade t : ℚ) (m : List (ℕ × ℚ)) :
    ((tick trailEnabled hoverPresent hold fade t m).2 = true ↔
      trailEnabled = true ∧ (hoverPresent = true ∨
        (tick trailEnabled hoverPresent hold fade t m).1 ≠ [])) ∧
    (∀ e ∈ (tick trailEnabled hoverPresent hold fade t m).1,
      e ∈ m ∧ t - e.2 ≤ max 0 hold + max 0 fade) ∧
    tick trailEnabled false hold fade t [] = ([], false) := by
  refine ⟨?_, ?_, ?_⟩
  · simp [tick, List.length_pos]
  · intro e he
    unfold tick at he
    simp only at he
    split at he
    · simp at he
    · rename_i hexp
      push_neg at hexp
      have := List.mem_filter.mp he
      refine ⟨this.1, ?_⟩
      have h2 := this.2
      simp only [gt_iff_lt, Bool.not_eq_true', decide_eq_false_iff_not, not_lt] at h2
      exact h2
  · unfold tick
    simp

/-- Witness for `tick_self_terminating`: with no pointer and an empty map the
tick does not re-schedule. -/
theorem tick_self_terminating_witness :
    tick true false 180 520 1701 [] = ([], false) :=
  (tick_self_terminating true false 180 520 1701 []).2.2

lemma flatMap_range_map_length {α : Type} (f : ℕ → ℕ → α) (n m : ℕ) :
    ((List.range n).flatMap fun i => (List.range m).map (f i)).length = n * m := by
  rw [List.length_flatMap]
  have hconst : (List.length ∘ fun i => (List.range m).map (f i)) =
      Function.const ℕ m := funext fun i => by simp
  rw [hconst, List.map_const, List.length_range, List.sum_replicate, smul_eq_mul]

lemma flatMap_range_map_getElem {α : Type} (f : ℕ → ℕ → α) (n m r c : ℕ)
    (hr : r < n) (hc : c < m) :
    ((List.range n).flatMap fun i => (List.range m).map (f i))[r * m + c]? =
      some (f r c) := by
  induction n with
  | zero => omega
  | succ n ih =>
    rw [List.range_succ, List.flatMap_append]
    rcases Nat.lt_or_ge r n with h | h
    · rw [List.getElem?_append_left]
      · exact ih h
      · rw [flatMap_range_map_length]
        have hm : 0 < m := by omega
        calc r * m + c < r * m + m := by omega
          _ = (r + 1) * m := by ring
          _ ≤ n * m := Nat.mul_le_mul_right m (by omega)
    · have hrn : r = n := by omega
      subst hrn
      rw [List.getElem?_append_right]
      · rw [flatMap_range_map_length]
        simp only [List.flatMap_singleton, Nat.add_sub_cancel_left]
        rw [List.getElem?_map, List.getElem?_range hc]
        rfl
      · rw [flatMap_range_map_length]
        omega

lemma gridDots_getElem_rc (width height dotSize gap : ℚ) (r c : ℕ)
    (hr : r < rowsOf height dotSize gap) (hc : c < colsOf width dotSize gap) :
    (gridDots width height dotSize gap)[r * colsOf width dotSize gap + c]? =
      some
        { x := (width - ((dotSize + gap) * (colsOf width dotSize gap : ℚ) - gap)) / 2 +
            dotSize / 2 + (c : ℚ) * (dotSize + gap)
          y := (height - ((dotSize + gap) * (rowsOf height dotSize gap : ℚ) - gap)) / 2 +
            dotSize / 2 + (r : ℚ) * (dotSize + gap)
          col := c
          row := r } := by
  rw [gridDots, flatMap_range_map_getElem _ _ _ _ _ hr hc]
  unfold startXOf startYOf cellOf
  norm_num

/-- C1: for nonnegative container sizes and positive cell pitch, the grid
engine yields `cols = max(1, ⌊(width+gap)/cell⌋) ≥ 1` and
`rows = max(1, ⌊(height+gap)/cell⌋) ≥ 1`, exactly `rows*cols` dots in
row-major order, the dot at row `r`, column `c` sitting at index `r*cols + c`
with center `((width - (cell*cols - gap))/2 + dotSize/2 + c*cell,
(height - (cell*rows - gap))/2 + dotSize/2 + r*cell)`. -/
theorem grid_layout (width height dotSize gap : ℚ)
    (hw : 0 ≤ width) (hh : 0 ≤ height) (hcell : 0 < dotSize + gap) :
    1 ≤ colsOf width dotSize gap ∧ 1 ≤ rowsOf height dotSize gap ∧
    ((colsOf width dotSize gap : ℕ) : ℤ) =
      max 1 ⌊(width + gap) / (dotSize + gap)⌋ ∧
    ((rowsOf height dotSize gap : ℕ) : ℤ) =
      max 1 ⌊(height + gap) / (dotSize + gap)⌋ ∧
    (gridDots width height dotSize gap).length =
      colsOf width dotSize gap * rowsOf height dotSize gap ∧
    ∀ r c : ℕ, r < rowsOf height dotSize gap → c < colsOf width dotSize gap →
      (gridDots width height dotSize gap)[r * colsOf width dotSize gap + c]? =
        some
          { x := (width - ((dotSize + gap) * (colsOf width dotSize gap : ℚ) - gap)) / 2 +
              dotSize / 2 + (c : ℚ) * (dotSize + gap)
            y := (height - ((dotSize + gap) * (rowsOf height dotSize gap : ℚ) - gap)) / 2 +
              dotSize / 2 + (r : ℚ) * (dotSize + gap)
            col := c
            row := r } := by
  have hcols : ((colsOf width dotSize gap : ℕ) : ℤ) =
      max 1 ⌊(width + gap) / (dotSize + gap)⌋ := by
    unfold colsOf cellOf
    exact Int.toNat_of_nonneg (le_trans Int.one_nonneg (le_max_left _ _))
  have hrows : ((rowsOf height dotSize gap : ℕ) : ℤ) =
      max 1 ⌊(height + gap) / (dotSize + gap)⌋ := by
    unfold rowsOf cellOf
    exact Int.toNat_of_nonneg (le_trans Int.one_nonneg (le_max_left _ _))
  refine ⟨?_, ?_, hcols, hrows, ?_, ?_⟩
  · have : (1 : ℤ) ≤ ((colsOf width dotSize gap : ℕ) : ℤ) := by
      rw [hcols]; exact le_max_left _ _
    exact_mod_cast this
  · have : (1 : ℤ) ≤ ((rowsOf height dotSize gap : ℕ) : ℤ) := by
      rw [hrows]; exact le_max_left _ _
    exact_mod_cast this
  · rw [gridDots, flatMap_range_map_length]
    ring
  · intro r c hr hc
    exact gridDots_getElem_rc width height dotSize gap r c hr hc

/-- Witness for `grid_layout` at the spec's end-to-end example
`400 × 400`, `dotSize = 16`, `gap = 32`. -/
theorem grid_layout_witness :
    (0 : ℚ) ≤ 400 ∧ (0 : ℚ) < 16 + 32 ∧ colsOf 400 16 32 = 9 ∧
    (gridDots 400 400 16 32).length = colsOf 400 16 32 * rowsOf 400 16 32 := by
  have h := grid_layout 400 400 16 32 (by norm_num) (by norm_num) (by norm_num)
  exact ⟨by norm_num, by norm_num, by unfold colsOf cellOf; norm_num; decide, h.2.2.2.2.1⟩

lemma hoverRadius_natCast (n : ℕ) : hoverRadiusOf (n : ℚ) = ((n / 2 : ℕ) : ℤ) := by
  unfold hoverRadiusOf
  have h := Rat.floor_natCast_div_natCast n 2
  norm_num at h
  rw [h]
  omega

lemma activeSet_nonneg_index (hr hc : ℕ) (cols : ℤ) (p : ℤ × ℤ)
    (h1 : 0 ≤ (hr : ℤ) + p.1) (h2 : 0 ≤ (hc : ℤ) + p.2) (hcols : 0 ≤ cols) :
    0 ≤ ((hr : ℤ) + p.1) * cols + ((hc : ℤ) + p.2) :=
  add_nonneg (mul_nonneg h1 hcols) h2

/-- C2: the cluster is exactly the set of indices `r*cols + c` with
`|r - hr| ≤ ⌊count/2⌋`, `|c - hc| ≤ ⌊count/2⌋` inside grid bounds; with
`count = 5` and the hovered dot at least two rows and columns from every edge
it has exactly 25 members; and an even count yields the same cluster as the
next odd count. -/
theorem cluster_spec (rows cols hr hc count i : ℕ) :
    (i ∈ activeSet rows cols hr hc (count : ℚ) ↔
      ∃ r c : ℤ, |r - (hr : ℤ)| ≤ ((count / 2 : ℕ) : ℤ) ∧
        |c - (hc : ℤ)| ≤ ((count / 2 : ℕ) : ℤ) ∧
        0 ≤ r ∧ r < (rows : ℤ) ∧ 0 ≤ c ∧ c < (cols : ℤ) ∧
        (i : ℤ) = r * (cols : ℤ) + c) ∧
    (2 ≤ hr → 2 ≤ hc → hr + 2 < rows → hc + 2 < cols →
      (activeSet rows cols hr hc 5).card = 25) ∧
    (count % 2 = 0 →
      activeSet rows cols hr hc (count : ℚ) =
        activeSet rows cols hr hc ((count + 1 : ℕ) : ℚ)) := by
  refine ⟨?_, ?_, ?_⟩
  · constructor
    · intro h
      unfold activeSet at h
      rw [Finset.mem_image] at h
      obtain ⟨p, hp, hpe⟩ := h
      rw [Finset.mem_filter] at hp
      obtain ⟨hpI, hbound⟩ := hp
      rw [Finset.mem_product, Finset.mem_Icc, Finset.mem_Icc] at hpI
      push_neg at hbound
      obtain ⟨hb1, hb2, hb3, hb4⟩ := hbound
      rw [hoverRadius_natCast] at hpI
      refine ⟨(hr : ℤ) + p.1, (hc : ℤ) + p.2, ?_, ?_, by linarith, hb2, by linarith, hb4, ?_⟩
      · rw [add_sub_cancel_left]
        exact abs_le.mpr ⟨hpI.1.1, hpI.1.2⟩
      · rw [add_sub_cancel_left]
        exact abs_le.mpr ⟨hpI.2.1, hpI.2.2⟩
      · rw [← hpe, Int.toNat_of_nonneg
          (activeSet_nonneg_index hr hc cols p (by linarith) (by linarith) (by positivity))]
    · rintro ⟨r, c, har, hac, hr0, hrlt, hc0, hclt, heq⟩
      unfold activeSet
      rw [Finset.mem_image]
      refine ⟨(r - (hr : ℤ), c - (hc : ℤ)), ?_, ?_⟩
      · rw [Finset.mem_filter, Finset.mem_product, Finset.mem_Icc, Finset.mem_Icc]
        rw [hoverRadius_natCast]
        have h1 := abs_le.mp har
        have h2 := abs_le.mp hac
        refine ⟨⟨⟨h1.1, h1.2⟩, ⟨h2.1, h2.2⟩⟩, ?_⟩
        push_neg
        simp only [add_sub_cancel]
        exact ⟨hr0, hrlt, hc0, hclt⟩
      · simp only [add_sub_cancel]
        rw [← heq, Int.toNat_natCast]
  · intro hhr hhc hrow hcol
    have hrad : hoverRadiusOf (5 : ℚ) = 2 := by
      unfold hoverRadiusOf
      norm_num
    have hhrz : (2 : ℤ) ≤ (hr : ℤ) := by exact_mod_cast hhr
    have hhcz : (2 : ℤ) ≤ (hc : ℤ) := by exact_mod_cast hhc
    have hrowz : (hr : ℤ) + 2 < (rows : ℤ) := by exact_mod_cast hrow
    have hcolz : (hc : ℤ) + 2 < (cols : ℤ) := by exact_mod_cast hcol
    have hcolpos : (0 : ℤ) < (cols : ℤ) := by linarith
    unfold activeSet
    rw [hrad]
    rw [Finset.filter_true_of_mem ?hmem]
    case hmem =>
      intro p hp
      rw [Finset.mem_product, Finset.mem_Icc, Finset.mem_Icc] at hp
      push_neg
      refine ⟨by linarith [hp.1.1], by linarith [hp.1.2], by linarith [hp.2.1],
        by linarith [hp.2.2]⟩
    rw [Finset.card_image_of_injOn ?hinj]
    case hinj =>
      intro p hp q hq hfe
      rw [Finset.mem_coe, Finset.mem_product, Finset.mem_Icc, Finset.mem_Icc] at hp hq
      have hpn : 0 ≤ ((hr : ℤ) + p.1) * cols + ((hc : ℤ) + p.2) :=
        activeSet_nonneg_index hr hc cols p (by linarith [hp.1.1]) (by linarith [hp.2.1])
          hcolpos.le
      have hqn : 0 ≤ ((hr : ℤ) + q.1) * cols + ((hc : ℤ) + q.2) :=
        activeSet_nonneg_index hr hc cols q (by linarith [hq.1.1]) (by linarith [hq.2.1])
          hcolpos.le
      have heq : ((hr : ℤ) + p.1) * cols + ((hc : ℤ) + p.2) =
          ((hr : ℤ) + q.1) * cols + ((hc : ℤ) + q.2) := by
        have := congrArg (fun n : ℕ => (n : ℤ)) hfe
        simpa [Int.toNat_of_nonneg hpn, Int.toNat_of_nonneg hqn] using this
      have hmodp : (((hr : ℤ) + p.1) * cols + ((hc : ℤ) + p.2)) % cols = (hc : ℤ) + p.2 := by
        rw [add_comm, Int.add_mul_emod_self]
        exact Int.emod_eq_of_lt (by linarith [hp.2.1]) (by linarith [hp.2.2])
      have hmodq : (((hr : ℤ) + q.1) * cols + ((hc : ℤ) + q.2)) % cols = (hc : ℤ) + q.2 := by
        rw [add_comm, Int.add_mul_emod_self]
        exact Int.emod_eq_of_lt (by linarith [hq.2.1]) (by linarith [hq.2.2])
      have hc2 : p.2 = q.2 := by
        have := hmodp.symm.trans ((congrArg (· % (cols : ℤ)) heq).trans hmodq)
        linarith
      have hc1 : p.1 = q.1 := by
        rw [hc2] at heq
        have hmul : ((hr : ℤ) + p.1) * cols = ((hr : ℤ) + q.1) * cols := by linarith
        have := mul_right_cancel₀ hcolpos.ne' hmul
        linarith
      exact Prod.ext hc1 hc2
    rw [Finset.card_product]
    rw [Int.card_Icc]
    norm_num
    decide
  · intro heven
    unfold activeSet
    rw [hoverRadius_natCast, hoverRadius_natCast,
      show (count / 2 : ℕ) = ((count + 1) / 2 : ℕ) by omega]

/-- Witness for `cluster_spec` on a 9×9 grid hovered at its center. -/
theorem cluster_spec_witness :
    (12 ∈ activeSet 9 9 4 4 ((5 : ℕ) : ℚ) ↔
      ∃ r c : ℤ, |r - (4 : ℤ)| ≤ (((5 : ℕ) / 2 : ℕ) : ℤ) ∧
        |c - (4 : ℤ)| ≤ (((5 : ℕ) / 2 : ℕ) : ℤ) ∧
        0 ≤ r ∧ r < (9 : ℤ) ∧ 0 ≤ c ∧ c < (9 : ℤ) ∧
        (12 : ℤ) = r * (9 : ℤ) + c) ∧
    (2 ≤ 4 → 2 ≤ 4 → 4 + 2 < 9 → 4 + 2 < 9 → (activeSet 9 9 4 4 5).card = 25) ∧
    ((5 : ℕ) % 2 = 0 →
      activeSet 9 9 4 4 ((5 : ℕ) : ℚ) = activeSet 9 9 4 4 (((5 : ℕ) + 1 : ℕ) : ℚ)) :=
  cluster_spec 9 9 4 4 5 12

lemma hexVal_le {c : Char} {v : ℕ} (h : hexVal c = some v) : v ≤ 15 := by
  unfold hexVal at h
  split_ifs at h <;> injection h with h <;> omega

lemma hexVal_digitChar : ∀ k : ℕ, k < 16 → hexVal (Nat.digitChar k) = some k := by
  decide

lemma parseHexChars_le {cs : List Char} {rgb : ℕ × ℕ × ℕ}
    (h : parseHexChars cs = some rgb) :
    rgb.1 ≤ 255 ∧ rgb.2.1 ≤ 255 ∧ rgb.2.2 ≤ 255 := by
  unfold parseHexChars at h
  split at h
  · split at h
    · rename_i v1 v2 v3 v4 v5 v6 h1 h2 h3 h4 h5 h6
      injection h with h
      subst h
      have := hexVal_le h1
      have := hexVal_le h2
      have := hexVal_le h3
      have := hexVal_le h4
      have := hexVal_le h5
      have := hexVal_le h6
      refine ⟨?_, ?_, ?_⟩ <;> dsimp only <;> omega
    · exact absurd h (by simp)
  · exact absurd h (by simp)

lemma hexToRgb_le (s : String) :
    (hexToRgb s).1 ≤ 255 ∧ (hexToRgb s).2.1 ≤ 255 ∧ (hexToRgb s).2.2 ≤ 255 := by
  unfold hexToRgb parseHex
  cases hp : parseHexChars s.data with
  | none => simp
  | some rgb => simpa using parseHexChars_le hp

lemma jsRound_natCast (n : ℕ) : jsRound (n : ℚ) = n := by
  unfold jsRound
  rw [add_comm, Int.floor_add_nat]
  norm_num

lemma clampChannel_natCast {n : ℕ} (h : n ≤ 255) : clampChannel (n : ℚ) = n := by
  unfold clampChannel
  rw [jsRound_natCast]
  omega

lemma clampChannel_le (x : ℚ) : clampChannel x ≤ 255 := by
  unfold clampChannel
  have h1 : min 255 (jsRound x) ≤ 255 := min_le_left _ _
  have h2 : max 0 (min 255 (jsRound x)) ≤ 255 := max_le (by norm_num) h1
  exact Int.toNat_le.mpr h2

lemma hexVal_hex2 {n : ℕ} (hn : n ≤ 255) : ∀ c ∈ hex2 n, (hexVal c).isSome := by
  intro c hc
  unfold hex2 at hc
  simp only [List.mem_cons, List.not_mem_nil, or_false] at hc
  rcases hc with rfl | rfl
  · rw [hexVal_digitChar (n / 16) (by omega)]
    rfl
  · rw [hexVal_digitChar (n % 16) (by omega)]
    rfl

lemma parseHexChars_roundtrip {r g b : ℕ} (hr : r ≤ 255) (hg : g ≤ 255)
    (hb : b ≤ 255) :
    parseHexChars ('#' :: (hex2 r ++ hex2 g ++ hex2 b)) = some (r, g, b) := by
  have e1 := hexVal_digitChar (r / 16) (by omega)
  have e2 := hexVal_digitChar (r % 16) (by omega)
  have e3 := hexVal_digitChar (g / 16) (by omega)
  have e4 := hexVal_digitChar (g % 16) (by omega)
  have e5 := hexVal_digitChar (b / 16) (by omega)
  have e6 := hexVal_digitChar (b % 16) (by omega)
  simp only [parseHexChars, stripHash, hex2, List.cons_append, List.nil_append,
    e1, e2, e3, e4, e5, e6]
  have hr2 : 16 * (r / 16) + r % 16 = r := by omega
  have hg2 : 16 * (g / 16) + g % 16 = g := by omega
  have hb2 : 16 * (b / 16) + b % 16 = b := by omega
  rw [hr2, hg2, hb2]

lemma hexToRgb_rgbToHex_natCast {r g b : ℕ} (hr : r ≤ 255) (hg : g ≤ 255)
    (hb : b ≤ 255) :
    hexToRgb (rgbToHex (r : ℚ) (g : ℚ) (b : ℚ)) = (r, g, b) := by
  unfold hexToRgb parseHex rgbToHex
  rw [clampChannel_natCast hr, clampChannel_natCast hg, clampChannel_natCast hb]
  rw [show (String.mk ('#' :: (hex2 r ++ hex2 g ++ hex2 b))).data =
    '#' :: (hex2 r ++ hex2 g ++ hex2 b) from rfl]
  rw [parseHexChars_roundtrip hr hg hb]
  rfl

lemma blend_one (a b : String) :
    blend a b 1 =
      rgbToHex ((hexToRgb b).1 : ℚ) ((hexToRgb b).2.1 : ℚ) ((hexToRgb b).2.2 : ℚ) := by
  unfold blend
  ring_nf

lemma hexToRgb_blend_one (a b : String) : hexToRgb (blend a b 1) = hexToRgb b := by
  rw [blend_one]
  obtain ⟨hbr, hbg, hbb⟩ := hexToRgb_le b
  rw [hexToRgb_rgbToHex_natCast hbr hbg hbb]

/-- C8: the color helpers never raise — a string not matching the optional-`#`
six-hex-digit pattern parses to black `(0,0,0)`, and `blend` always returns
`#` followed by six hex digits whose channels are the interpolated values
`a + (b - a)*t` rounded to the nearest integer and clamped to `[0,255]`. -/
theorem color_helpers_total (s a b : String) (t : ℚ) :
    (parseHex s = none → hexToRgb s = (0, 0, 0)) ∧
    (blend a b t).data =
      '#' :: (hex2 (clampChannel (((hexToRgb a).1 : ℚ) +
          (((hexToRgb b).1 : ℚ) - ((hexToRgb a).1 : ℚ)) * t)) ++
        hex2 (clampChannel (((hexToRgb a).2.1 : ℚ) +
          (((hexToRgb b).2.1 : ℚ) - ((hexToRgb a).2.1 : ℚ)) * t)) ++
        hex2 (clampChannel (((hexToRgb a).2.2 : ℚ) +
          (((hexToRgb b).2.2 : ℚ) - ((hexToRgb a).2.2 : ℚ)) * t))) ∧
    (blend a b t).data.length = 7 ∧
    (blend a b t).data.head? = some '#' ∧
    ∀ c ∈ (blend a b t).data.tail, (hexVal c).isSome := by
  have hdata : (blend a b t).data =
      '#' :: (hex2 (clampChannel (((hexToRgb a).1 : ℚ) +
          (((hexToRgb b).1 : ℚ) - ((hexToRgb a).1 : ℚ)) * t)) ++
        hex2 (clampChannel (((hexToRgb a).2.1 : ℚ) +
          (((hexToRgb b).2.1 : ℚ) - ((hexToRgb a).2.1 : ℚ)) * t)) ++
        hex2 (clampChannel (((hexToRgb a).2.2 : ℚ) +
          (((hexToRgb b).2.2 : ℚ) - ((hexToRgb a).2.2 : ℚ)) * t))) := rfl
  refine ⟨?_, hdata, ?_, ?_, ?_⟩
  · intro h
    unfold hexToRgb
    rw [h]
    rfl
  · rw [hdata]
    simp [hex2]
  · rw [hdata]
    rfl
  · rw [hdata]
    intro c hc
    simp only [List.tail_cons, List.append_assoc, List.mem_append] at hc
    rcases hc with hc | hc | hc
    · exact hexVal_hex2 (clampChannel_le _) c hc
    · exact hexVal_hex2 (clampChannel_le _) c hc
    · exact hexVal_hex2 (clampChannel_le _) c hc

/-- Witness for `color_helpers_total`: a non-matching string parses to black,
and a concrete blend emits a 7-character hex color. -/
theorem color_helpers_total_witness :
    parseHex "xyz" = none ∧ hexToRgb "xyz" = (0, 0, 0) ∧
    (blend "#5227FF" "#FFFFFF" (1 / 2)).data.length = 7 :=
  ⟨by decide, (color_helpers_total "xyz" "#5227FF" "#FFFFFF" (1 / 2)).1 (by decide),
    (color_helpers_total "xyz" "#5227FF" "#FFFFFF" (1 / 2)).2.2.1⟩

lemma distSq_nonneg (d : Dot) (hx hy : ℚ) : 0 ≤ distSq d hx hy :=
  add_nonneg (mul_self_nonneg _) (mul_self_nonneg _)

lemma distSq_self (d : Dot) : distSq d d.x d.y = 0 := by
  unfold distSq
  ring

lemma distSq_eq_zero {d : Dot} {hx hy : ℚ} (h : distSq d hx hy = 0) :
    d.x = hx ∧ d.y = hy := by
  unfold distSq at h
  have h1 : (d.x - hx) * (d.x - hx) = 0 := by
    nlinarith [mul_self_nonneg (d.x - hx), mul_self_nonneg (d.y - hy)]
  have h2 : (d.y - hy) * (d.y - hy) = 0 := by
    nlinarith [mul_self_nonneg (d.x - hx), mul_self_nonneg (d.y - hy)]
  constructor
  · have := mul_self_eq_zero.mp h1
    linarith
  · have := mul_self_eq_zero.mp h2
    linarith

lemma scan_spec (hx hy : ℚ) (l : List Dot) (hne : l ≠ []) :
    ∃ (i : ℕ) (best : Dot), l[i]? = some best ∧
      l.foldl (scanStep hx hy) none = some (distSq best hx hy, best) ∧
      (∀ (j : ℕ) (d : Dot), l[j]? = some d → distSq best hx hy ≤ distSq d hx hy) ∧
      (∀ (j : ℕ) (d : Dot), j < i → l[j]? = some d → distSq best hx hy < distSq d hx hy) := by
  induction l using List.reverseRecOn with
  | nil => exact absurd rfl hne
  | append_singleton l' d ih =>
    rw [List.foldl_append, List.foldl_cons, List.foldl_nil]
    rcases eq_or_ne l' [] with hl' | hl'
    · subst hl'
      refine ⟨0, d, rfl, rfl, ?_, ?_⟩
      · intro j d' hj
        cases j with
        | zero =>
          simp only [List.nil_append, List.getElem?_cons_zero, Option.some.injEq] at hj
          rw [← hj]
        | succ n => simp at hj
      · intro j d' hjlt hj
        omega
    · obtain ⟨i, best, hbi, hfold, hmin, hstrict⟩ := ih hl'
      rw [hfold]
      have hilen : i < l'.length := (List.getElem?_eq_some_iff.mp hbi).1
      simp only [scanStep]
      by_cases hlt : distSq d hx hy < distSq best hx hy
      · rw [if_pos hlt]
        refine ⟨l'.length, d, List.getElem?_concat_length l' d, rfl, ?_, ?_⟩
        · intro j d' hj
          rcases Nat.lt_or_ge j l'.length with h | h
          · rw [List.getElem?_append_left h] at hj
            exact le_of_lt (lt_of_lt_of_le hlt (hmin j d' hj))
          · rw [List.getElem?_append_right h] at hj
            obtain ⟨k, rfl⟩ : ∃ k, j = l'.length + k := ⟨j - l'.length, by omega⟩
            rw [Nat.add_sub_cancel_left] at hj
            cases k with
            | zero =>
              simp only [List.getElem?_cons_zero, Option.some.injEq] at hj
              rw [← hj]
            | succ n => simp at hj
        · intro j d' hjlt hj
          rw [List.getElem?_append_left hjlt] at hj
          exact lt_of_lt_of_le hlt (hmin j d' hj)
      · rw [if_neg hlt]
        push_neg at hlt
        refine ⟨i, best, ?_, rfl, ?_, ?_⟩
        · rw [List.getElem?_append_left hilen]
          exact hbi
        · intro j d' hj
          rcases Nat.lt_or_ge j l'.length with h | h
          · rw [List.getElem?_append_left h] at hj
            exact hmin j d' hj
          · rw [List.getElem?_append_right h] at hj
            obtain ⟨k, rfl⟩ : ∃ k, j = l'.length + k := ⟨j - l'.length, by omega⟩
            rw [Nat.add_sub_cancel_left] at hj
            cases k with
            | zero =>
              simp only [List.getElem?_cons_zero, Option.some.injEq] at hj
              rw [← hj]
              exact hlt
            | succ n => simp at hj
        · intro j d' hjlt hj
          rw [List.getElem?_append_left (lt_trans hjlt hilen)] at hj
          exact hstrict j d' hjlt hj

lemma colsOf_pos (width dotSize gap : ℚ) : 0 < colsOf width dotSize gap :=
  Nat.lt_of_lt_of_le Nat.zero_lt_one
    (by
      have : (1 : ℤ) ≤ ((colsOf width dotSize gap : ℕ) : ℤ) := by
        unfold colsOf
        rw [Int.toNat_of_nonneg (le_trans Int.one_nonneg (le_max_left _ _))]
        exact le_max_left _ _
      exact_mod_cast this)

lemma rowsOf_pos (height dotSize gap : ℚ) : 0 < rowsOf height dotSize gap :=
  Nat.lt_of_lt_of_le Nat.zero_lt_one
    (by
      have : (1 : ℤ) ≤ ((rowsOf height dotSize gap : ℕ) : ℤ) := by
        unfold rowsOf
        rw [Int.toNat_of_nonneg (le_trans Int.one_nonneg (le_max_left _ _))]
        exact le_max_left _ _
      exact_mod_cast this)

lemma gridDots_length (width height dotSize gap : ℚ) :
    (gridDots width height dotSize gap).length =
      rowsOf height dotSize gap * colsOf width dotSize gap := by
  rw [gridDots, flatMap_range_map_length]

lemma gridDots_ne_nil (width height dotSize gap : ℚ) :
    gridDots width height dotSize gap ≠ [] := by
  have h := gridDots_length width height dotSize gap
  intro hnil
  rw [hnil] at h
  have h1 := rowsOf_pos height dotSize gap
  have h2 := colsOf_pos width dotSize gap
  simp only [List.length_nil] at h
  exact absurd h.symm (by positivity)

lemma gridDots_getElem (width height dotSize gap : ℚ) (j : ℕ)
    (hj : j < (gridDots width height dotSize gap).length) :
    (gridDots width height dotSize gap)[j]? =
      some
        { x := startXOf width dotSize gap +
            ((j % colsOf width dotSize gap : ℕ) : ℚ) * cellOf dotSize gap
          y := startYOf height dotSize gap +
            ((j / colsOf width dotSize gap : ℕ) : ℚ) * cellOf dotSize gap
          col := j % colsOf width dotSize gap
          row := j / colsOf width dotSize gap } := by
  have hc := colsOf_pos width dotSize gap
  rw [gridDots_length] at hj
  have hr : j / colsOf width dotSize gap < rowsOf height dotSize gap :=
    Nat.div_lt_of_lt_mul (by rw [Nat.mul_comm] at hj; omega)
  have hcm : j % colsOf width dotSize gap < colsOf width dotSize gap :=
    Nat.mod_lt _ hc
  have hidx : j / colsOf width dotSize gap * colsOf width dotSize gap +
      j % colsOf width dotSize gap = j := by
    rw [Nat.mul_comm]
    exact Nat.div_add_mod j _
  unfold gridDots
  have h2 := flatMap_range_map_getElem
    (fun row col =>
      ({ x := startXOf width dotSize gap + (col : ℚ) * cellOf dotSize gap
         y := startYOf height dotSize gap + (row : ℚ) * cellOf dotSize gap
         col := col
         row := row } : Dot))
    (rowsOf height dotSize gap) (colsOf width dotSize gap)
    (j / colsOf width dotSize gap) (j % colsOf width dotSize gap) hr hcm
  rw [hidx] at h2
  exact h2

lemma gridDots_center_inj (width height dotSize gap : ℚ) (hcell : 0 < dotSize + gap)
    {j k : ℕ} {d e : Dot}
    (hj : (gridDots width height dotSize gap)[j]? = some d)
    (hk : (gridDots width height dotSize gap)[k]? = some e)
    (hxy : d.x = e.x ∧ d.y = e.y) : d = e := by
  have hjl := (List.getElem?_eq_some_iff.mp hj).1
  have hkl := (List.getElem?_eq_some_iff.mp hk).1
  rw [gridDots_getElem width height dotSize gap j hjl] at hj
  rw [gridDots_getElem width height dotSize gap k hkl] at hk
  injection hj with hj
  injection hk with hk
  subst hj
  subst hk
  obtain ⟨hx, hy⟩ := hxy
  simp only at hx hy
  have hcol : j % colsOf width dotSize gap = k % colsOf width dotSize gap := by
    have := mul_right_cancel₀ (by unfold cellOf; exact hcell.ne') (by linarith :
      ((j % colsOf width dotSize gap : ℕ) : ℚ) * cellOf dotSize gap =
        ((k % colsOf width dotSize gap : ℕ) : ℚ) * cellOf dotSize gap)
    exact_mod_cast this
  have hrow : j / colsOf width dotSize gap = k / colsOf width dotSize gap := by
    have := mul_right_cancel₀ (by unfold cellOf; exact hcell.ne') (by linarith :
      ((j / colsOf width dotSize gap : ℕ) : ℚ) * cellOf dotSize gap =
        ((k / colsOf width dotSize gap : ℕ) : ℚ) * cellOf dotSize gap)
    exact_mod_cast this
  rw [hcol, hrow]

lemma hoveredDot_center_spec (width height dotSize gap : ℚ) (k : ℕ) (ck : Dot)
    (hcell : 0 < dotSize + gap)
    (hk : (gridDots width height dotSize gap)[k]? = some ck) :
    hoveredDot (gridDots width height dotSize gap) ck.x ck.y = some ck ∧
    ∀ (j : ℕ) (d : Dot), (gridDots width height dotSize gap)[j]? = some d → d ≠ ck →
      0 < distSq d ck.x ck.y := by
  have hne := gridDots_ne_nil width height dotSize gap
  have hpos : ∀ (j : ℕ) (d : Dot), (gridDots width height dotSize gap)[j]? = some d → d ≠ ck →
      0 < distSq d ck.x ck.y := by
    intro j d hj hne'
    rcases lt_or_eq_of_le (distSq_nonneg d ck.x ck.y) with h | h
    · exact h
    · exfalso
      exact hne' (gridDots_center_inj width height dotSize gap hcell hj hk
        (distSq_eq_zero h.symm))
  refine ⟨?_, hpos⟩
  obtain ⟨i, best, hbi, hfold, hmin, hstrict⟩ := scan_spec ck.x ck.y _ hne
  have hz : distSq best ck.x ck.y = 0 :=
    le_antisymm (by simpa [distSq_self] using hmin k ck hk) (distSq_nonneg _ _ _)
  have hbest : best = ck := by
    by_contra hne'
    exact absurd hz (ne_of_gt (hpos i best hbi hne'))
  rw [hoveredDot, hfold]
  simp [hbest]

/-- C5: the proximity resolver returns the dot minimizing the Euclidean
distance to the pointer, ties broken in favor of the first dot in row-major
order (every strictly earlier dot is strictly farther); and a pointer placed
exactly at a dot's center selects that dot, every other dot being at
strictly positive distance. -/
theorem nearest_dot (width height dotSize gap hx hy : ℚ) (k : ℕ) (ck : Dot)
    (hcell : 0 < dotSize + gap)
    (hk : (gridDots width height dotSize gap)[k]? = some ck) :
    (∃ (i : ℕ) (best : Dot),
      (gridDots width height dotSize gap)[i]? = some best ∧
      hoveredDot (gridDots width height dotSize gap) hx hy = some best ∧
      (∀ (j : ℕ) (d : Dot), (gridDots width height dotSize gap)[j]? = some d →
        distSq best hx hy ≤ distSq d hx hy) ∧
      (∀ (j : ℕ) (d : Dot), j < i → (gridDots width height dotSize gap)[j]? = some d →
        distSq best hx hy < distSq d hx hy)) ∧
    hoveredDot (gridDots width height dotSize gap) ck.x ck.y = some ck ∧
    (∀ (j : ℕ) (d : Dot), (gridDots width height dotSize gap)[j]? = some d → d ≠ ck →
      0 < distSq d ck.x ck.y) := by
  obtain ⟨h1, h2⟩ := hoveredDot_center_spec width height dotSize gap k ck hcell hk
  refine ⟨?_, h1, h2⟩
  obtain ⟨i, best, hbi, hfold, hmin, hstrict⟩ :=
    scan_spec hx hy _ (gridDots_ne_nil width height dotSize gap)
  exact ⟨i, best, hbi, by rw [hoveredDot, hfold]; rfl, hmin, hstrict⟩

/-- Witness for `nearest_dot`: the 9×9 example grid with the pointer at the
center dot's center. -/
theorem nearest_dot_witness :
    (0 : ℚ) < 16 + 32 ∧ (gridDots 400 400 16 32)[40]? =
      some { x := 200, y := 200, col := 4, row := 4 } ∧
    hoveredDot (gridDots 400 400 16 32)
      ({ x := 200, y := 200, col := 4, row := 4 } : Dot).x
      ({ x := 200, y := 200, col := 4, row := 4 } : Dot).y =
      some { x := 200, y := 200, col := 4, row := 4 } := by
  have h1 : (0 : ℚ) < 16 + 32 := by norm_num
  have hcols : colsOf 400 16 32 = 9 := by unfold colsOf cellOf; norm_num; decide
  have hrows : rowsOf 400 16 32 = 9 := by unfold rowsOf cellOf; norm_num; decide
  have h2 := gridDots_getElem_rc 400 400 16 32 4 4
    (by rw [hrows]; norm_num) (by rw [hcols]; norm_num)
  rw [hcols, hrows] at h2
  norm_num at h2
  exact ⟨h1, h2,
    (nearest_dot 400 400 16 32 0 0 40 { x := 200, y := 200, col := 4, row := 4 }
      h1 h2).2.1⟩

lemma renderDotTrail_hover (p : Props) (hd : Dot) (aset : Finset ℕ)
    (lastHit : List (ℕ × ℚ)) (now : ℚ) (i : ℕ) (dot : Dot) (hmem : i ∈ aset) :
    renderDotTrail p true (some hd) aset lastHit now i dot =
      { level := 1
        scaleTarget := scaleTarget (countOf p) (intensityOf p) (gridDist dot hd)
        x := dot.x
        y := dot.y
        r := baseRadiusOf p *
          (1 + (scaleTarget (countOf p) (intensityOf p) (gridDist dot hd) - 1) * 1)
        color := blend p.baseColor p.activeColor 1 } := by
  unfold renderDotTrail
  simp [hmem]

lemma renderDotPlain_hover (p : Props) (hd : Dot) (aset : Finset ℕ)
    (i : ℕ) (dot : Dot) (hmem : i ∈ aset) :
    renderDotPlain p true (some hd) aset i dot =
      { level := 1
        scaleTarget := scaleTarget (countOf p) (intensityOf p) (gridDist dot hd)
        x := dot.x
        y := dot.y
        r := baseRadiusOf p * scaleTarget (countOf p) (intensityOf p) (gridDist dot hd)
        color := p.activeColor } := by
  unfold renderDotPlain
  simp [hmem]

lemma renderTrail_getElem (p : Props) (width height : ℚ) (hover : Option (ℚ × ℚ))
    (lastHit : List (ℕ × ℚ)) (now : ℚ) (i : ℕ)
    (hi : i < (gridDots width height p.dotSize p.gap).length) :
    (renderTrail p width height hover lastHit now)[i]? =
      some (renderDotTrail p hover.isSome
        (hoveredOf (gridDots width height p.dotSize p.gap) hover)
        (asetOf p width height hover) lastHit now i
        ((gridDots width height p.dotSize p.gap).get ⟨i, hi⟩)) := by
  unfold renderTrail
  rw [List.getElem?_map]
  have he : (gridDots width height p.dotSize p.gap).enum[i]? =
      some (i, (gridDots width height p.dotSize p.gap).get ⟨i, hi⟩) := by
    rw [List.getElem?_eq_getElem (by rw [List.enum_length]; exact hi)]
    rw [List.getElem_enum]
    rfl
  rw [he]
  rfl

lemma renderPlain_getElem (p : Props) (width height : ℚ) (hover : Option (ℚ × ℚ))
    (i : ℕ) (hi : i < (gridDots width height p.dotSize p.gap).length) :
    (renderPlain p width height hover)[i]? =
      some (renderDotPlain p hover.isSome
        (hoveredOf (gridDots width height p.dotSize p.gap) hover)
        (asetOf p width height hover) i
        ((gridDots width height p.dotSize p.gap).get ⟨i, hi⟩)) := by
  unfold renderPlain
  rw [List.getElem?_map]
  have he : (gridDots width height p.dotSize p.gap).enum[i]? =
      some (i, (gridDots width height p.dotSize p.gap).get ⟨i, hi⟩) := by
    rw [List.getElem?_eq_getElem (by rw [List.enum_length]; exact hi)]
    rw [List.getElem_enum]
    rfl
  rw [he]
  rfl

/-- C6: while the pointer is present, every dot of the active cluster is
rendered at compositing level exactly 1 with fill `blend(baseColor,
activeColor, 1)` — the active color, not blended by grid distance (in the
non-trailing variant literally `activeColor`); only the radius scale varies
with distance. -/
theorem cluster_full_color (p : Props) (width height hx hy : ℚ)
    (lastHit : List (ℕ × ℚ)) (now : ℚ) (i : ℕ)
    (hmem : i ∈ asetOf p width height (some (hx, hy)))
    (hi : i < (gridDots width height p.dotSize p.gap).length) :
    (∃ v : DotVisual,
      (renderTrail p width height (some (hx, hy)) lastHit now)[i]? = some v ∧
      v.level = 1 ∧ v.color = blend p.baseColor p.activeColor 1 ∧
      hexToRgb v.color = hexToRgb p.activeColor) ∧
    (∃ v : DotVisual,
      (renderPlain p width height (some (hx, hy)))[i]? = some v ∧
      v.level = 1 ∧ v.color = p.activeColor) := by
  cases hhd : hoveredOf (gridDots width height p.dotSize p.gap) (some (hx, hy)) with
  | none =>
    exfalso
    unfold asetOf at hmem
    rw [hhd] at hmem
    simp [activeSetOf] at hmem
  | some hd =>
    constructor
    · refine ⟨_, renderTrail_getElem p width height (some (hx, hy)) lastHit now i hi, ?_⟩
      rw [hhd]
      rw [show (some (hx, hy)).isSome = true from rfl]
      rw [renderDotTrail_hover p hd _ lastHit now i _ hmem]
      exact ⟨rfl, rfl, hexToRgb_blend_one _ _⟩
    · refine ⟨_, renderPlain_getElem p width height (some (hx, hy)) i hi, ?_⟩
      rw [hhd]
      rw [show (some (hx, hy)).isSome = true from rfl]
      rw [renderDotPlain_hover p hd _ i _ hmem]
      exact ⟨rfl, rfl⟩

lemma colsOf_zero_default : colsOf 0 16 32 = 1 := by
  unfold colsOf cellOf
  norm_num

lemma rowsOf_zero_default : rowsOf 0 16 32 = 1 := by
  unfold rowsOf cellOf
  norm_num

lemma gridDots_zero_default :
    (gridDots 0 0 16 32)[0]? = some ({ x := 0, y := 0, col := 0, row := 0 } : Dot) := by
  have h2 := gridDots_getElem_rc 0 0 16 32 0 0
    (by rw [rowsOf_zero_default]; norm_num) (by rw [colsOf_zero_default]; norm_num)
  rw [colsOf_zero_default, rowsOf_zero_default] at h2
  norm_num at h2
  exact h2

lemma hovered_zero_default :
    hoveredOf (gridDots 0 0 16 32) (some (0, 0)) =
      some ({ x := 0, y := 0, col := 0, row := 0 } : Dot) := by
  have h := (hoveredDot_center_spec 0 0 16 32 0 { x := 0, y := 0, col := 0, row := 0 }
    (by norm_num) gridDots_zero_default).1
  exact h

lemma mem_aset_zero_default : 0 ∈ asetOf ({} : Props) 0 0 (some (0, 0)) := by
  unfold asetOf
  rw [show Props.dotSize ({} : Props) = 16 from rfl,
    show Props.gap ({} : Props) = 32 from rfl, hovered_zero_default]
  unfold activeSetOf
  rw [colsOf_zero_default, rowsOf_zero_default]
  have hrad : hoverRadiusOf (countOf ({} : Props)) = 2 := by
    unfold hoverRadiusOf countOf
    norm_num
  unfold activeSet
  rw [hrad]
  decide

/-- Witness for `cluster_full_color`: the 1×1 grid of a zero-size container
with the pointer at its only dot. -/
theorem cluster_full_color_witness :
    0 ∈ asetOf ({} : Props) 0 0 (some (0, 0)) ∧
    0 < (gridDots 0 0 16 32).length ∧
    ((∃ v : DotVisual,
      (renderTrail ({} : Props) 0 0 (some (0, 0)) [] 0)[0]? = some v ∧
      v.level = 1 ∧ v.color = blend (Props.baseColor {}) (Props.activeColor {}) 1 ∧
      hexToRgb v.color = hexToRgb (Props.activeColor {})) ∧
    (∃ v : DotVisual,
      (renderPlain ({} : Props) 0 0 (some (0, 0)))[0]? = some v ∧
      v.level = 1 ∧ v.color = Props.activeColor {})) := by
  have hlen : 0 < (gridDots 0 0 16 32).length := by
    rw [gridDots_length, colsOf_zero_default, rowsOf_zero_default]
    norm_num
  exact ⟨mem_aset_zero_default, hlen,
    cluster_full_color {} 0 0 0 0 [] 0 0 mem_aset_zero_default hlen⟩

lemma getTrailLevel_false (hit : Option ℚ) (holdMs fadeMs now : ℚ) :
    getTrailLevel false hit holdMs fadeMs now = 0 := rfl

lemma renderDot_equiv (p : Props) (hte : p.trailEnabled = false)
    (hoverPresent : Bool) (hovered : Option Dot) (aset : Finset ℕ) (now : ℚ)
    (i : ℕ) (dot : Dot) :
    (renderDotTrail p hoverPresent hovered aset [] now i dot).x =
      (renderDotPlain p hoverPresent hovered aset i dot).x ∧
    (renderDotTrail p hoverPresent hovered aset [] now i dot).y =
      (renderDotPlain p hoverPresent hovered aset i dot).y ∧
    (renderDotTrail p hoverPresent hovered aset [] now i dot).r =
      (renderDotPlain p hoverPresent hovered aset i dot).r ∧
    hexToRgb (renderDotTrail p hoverPresent hovered aset [] now i dot).color =
      hexToRgb (renderDotPlain p hoverPresent hovered aset i dot).color ∧
    (blend p.baseColor p.activeColor 1 = p.activeColor →
      renderDotTrail p hoverPresent hovered aset [] now i dot =
        renderDotPlain p hoverPresent hovered aset i dot) := by
  cases hovered with
  | none =>
    simp only [renderDotTrail, renderDotPlain, hte, getTrailLevel_false,
      Option.isSome_none, Bool.and_false]
    norm_num
  | some hd =>
    cases hact : (hoverPresent && decide (i ∈ aset) && (some hd).isSome) with
    | false =>
      simp only [renderDotTrail, renderDotPlain, hact, hte, getTrailLevel_false]
      norm_num
    | true =>
      simp only [renderDotTrail, renderDotPlain, hact]
      refine ⟨by trivial, by trivial, by ring, ?_, ?_⟩
      · rw [if_pos (by norm_num : (0 : ℚ) < 1)]
        exact hexToRgb_blend_one _ _
      · intro hnorm
        rw [if_pos (by norm_num : (0 : ℚ) < 1), hnorm]
        congr 1
        ring

lemma renderTrail_length (p : Props) (width height : ℚ) (hover : Option (ℚ × ℚ))
    (lastHit : List (ℕ × ℚ)) (now : ℚ) :
    (renderTrail p width height hover lastHit now).length =
      (gridDots width height p.dotSize p.gap).length := by
  simp [renderTrail]

lemma renderPlain_length (p : Props) (width height : ℚ) (hover : Option (ℚ × ℚ)) :
    (renderPlain p width height hover).length =
      (gridDots width height p.dotSize p.gap).length := by
  simp [renderPlain]

lemma clampChannel_255 : clampChannel (255 : ℚ) = 255 := by
  unfold clampChannel jsRound
  norm_num
  decide

lemma blend_default_colors : blend "#5227FF" "#FFFFFF" 1 = "#ffffff" := by
  rw [blend_one]
  rw [show hexToRgb "#FFFFFF" = (255, 255, 255) from by decide]
  norm_num
  unfold rgbToHex
  rw [clampChannel_255]
  decide

/-- C9 counterexample: with the default configuration (`trailEnabled = false`,
`activeColor = "#FFFFFF"`), an empty trail map and the pointer on the single
dot of a zero-size container, the two variants emit different fill strings:
the trailing variant normalizes the active color to `"#ffffff"` through
`blend`, the non-trailing variant emits `"#FFFFFF"` verbatim. -/
theorem trail_equiv_counterexample :
    Props.trailEnabled ({} : Props) = false ∧
    (renderTrail ({} : Props) 0 0 (some (0, 0)) [] 0).map outputTuple ≠
      (renderPlain ({} : Props) 0 0 (some (0, 0))).map outputTuple := by
  refine ⟨rfl, ?_⟩
  intro heq
  have hlen : 0 < (gridDots 0 0 16 32).length := by
    rw [gridDots_length, colsOf_zero_default, rowsOf_zero_default]
    norm_num
  have h1 := renderTrail_getElem ({} : Props) 0 0 (some (0, 0)) [] 0 0 hlen
  have h2 := renderPlain_getElem ({} : Props) 0 0 (some (0, 0)) 0 hlen
  rw [hovered_zero_default] at h1 h2
  rw [show (some ((0 : ℚ), (0 : ℚ))).isSome = true from rfl] at h1 h2
  rw [renderDotTrail_hover _ _ _ _ _ _ _ mem_aset_zero_default] at h1
  rw [renderDotPlain_hover _ _ _ _ _ mem_aset_zero_default] at h2
  have h3 := congrArg (fun l => l[0]?) heq
  simp only [List.getElem?_map, h1, h2, Option.map_some] at h3
  have h4 : blend (Props.baseColor ({} : Props)) (Props.activeColor ({} : Props)) 1 =
      Props.activeColor ({} : Props) := by
    have h5 := congrArg (fun t : ℚ × ℚ × ℚ × String => t.2.2.2) (Option.some.inj h3)
    simpa [outputTuple] using h5
  rw [show Props.baseColor ({} : Props) = "#5227FF" from rfl,
    show Props.activeColor ({} : Props) = "#FFFFFF" from rfl, blend_default_colors] at h4
  exact absurd h4 (by decide)

/-- C9 amended: with `trailEnabled = false` and an empty trail-entry map, the
two variants emit per-dot tuples that agree on center position and radius and
whose fill colors are equal as parsed RGB values; the emitted strings — and
hence the full output tuples — coincide exactly when blending the active
color at level 1 reproduces the `activeColor` string verbatim (i.e. when
`activeColor` is already in lowercase `#rrggbb` form). -/
theorem trail_equiv_amended (p : Props) (hte : p.trailEnabled = false)
    (width height : ℚ) (hover : Option (ℚ × ℚ)) (now : ℚ) :
    (renderTrail p width height hover [] now).length =
      (renderPlain p width height hover).length ∧
    (∀ (i : ℕ) (vT vP : DotVisual),
      (renderTrail p width height hover [] now)[i]? = some vT →
      (renderPlain p width height hover)[i]? = some vP →
      vT.x = vP.x ∧ vT.y = vP.y ∧ vT.r = vP.r ∧
      hexToRgb vT.color = hexToRgb vP.color) ∧
    (blend p.baseColor p.activeColor 1 = p.activeColor →
      (renderTrail p width height hover [] now).map outputTuple =
        (renderPlain p width height hover).map outputTuple) := by
  refine ⟨?_, ?_, ?_⟩
  · rw [renderTrail_length, renderPlain_length]
  · intro i vT vP h1 h2
    have hi : i < (gridDots width height p.dotSize p.gap).length := by
      have := (List.getElem?_eq_some_iff.mp h1).1
      rwa [renderTrail_length] at this
    rw [renderTrail_getElem _ _ _ _ _ _ _ hi] at h1
    rw [renderPlain_getElem _ _ _ _ _ hi] at h2
    obtain rfl := Option.some.inj h1
    obtain rfl := Option.some.inj h2
    obtain ⟨e1, e2, e3, e4, _⟩ := renderDot_equiv p hte hover.isSome
      (hoveredOf (gridDots width height p.dotSize p.gap) hover)
      (asetOf p width height hover) now i
      ((gridDots width height p.dotSize p.gap).get ⟨i, hi⟩)
    exact ⟨e1, e2, e3, e4⟩
  · intro hnorm
    unfold renderTrail renderPlain
    rw [List.map_map, List.map_map]
    have hfun : (outputTuple ∘ fun di : ℕ × Dot =>
        renderDotTrail p hover.isSome
          (hoveredOf (gridDots width height p.dotSize p.gap) hover)
          (asetOf p width height hover) [] now di.1 di.2) =
        (outputTuple ∘ fun di : ℕ × Dot =>
          renderDotPlain p hover.isSome
            (hoveredOf (gridDots width height p.dotSize p.gap) hover)
            (asetOf p width height hover) di.1 di.2) := by
      funext di
      exact congrArg outputTuple
        ((renderDot_equiv p hte hover.isSome _ _ now di.1 di.2).2.2.2.2 hnorm)
    rw [hfun]

/-- Witness for `trail_equiv_amended` at the default configuration. -/
theorem trail_equiv_amended_witness :
    Props.trailEnabled ({} : Props) = false ∧
    (renderTrail ({} : Props) 0 0 none [] 0).length =
      (renderPlain ({} : Props) 0 0 none).length :=
  ⟨rfl, (trail_equiv_amended {} rfl 0 0 none 0).1⟩

/-- C10: the `hoverSquareRadius` prop is accepted but never read — replacing
its value (or absence) leaves every emitted per-dot visual of both variants
unchanged. -/
theorem hoverSquareRadius_unused (p : Props) (v : Option ℚ) (width height : ℚ)
    (hover : Option (ℚ × ℚ)) (lastHit : List (ℕ × ℚ)) (now : ℚ) :
    renderTrail { p with hoverSquareRadius := v } width height hover lastHit now =
      renderTrail p width height hover lastHit now ∧
    renderPlain { p with hoverSquareRadius := v } width height hover =
      renderPlain p width height hover := by
  cases p
  exact ⟨rfl, rfl⟩

end DotGrid
